import Mathlib

/-!
Shallow embedding of the caching / history core of `src/app.py` (QUERY BOT).

Conventions of the embedding:
* Python strings are Lean `String`s; byte strings are `List Nat` (each < 256).
* Timestamps are natural numbers (seconds).  The source uses `time.time()`
  floats; nothing in the verified properties depends on sub-second precision,
  so time is modelled as `Nat`.
* The Redis backend is an explicit state value (`RedisState`) with string keys
  carrying values and expiry instants, and sorted-set keys carrying
  member/score pairs and an optional expiry instant.
* The Groq model is an oracle `String -> Except String String`; an `Except.error`
  models a raised exception from the client library.
* `str.lower` / `str.strip` / `str.split` are modelled for ASCII text, which is
  the fragment the normalisation invariants quantify over.
-/

/-! ## Python string helpers (`str.strip`, `str.lower`, `str.split`) -/

/-- Whitespace characters recognised by Python's `str.strip` / `str.split`
(ASCII fragment). -/
def isPySpace (c : Char) : Bool :=
  c = ' ' || c = '\t' || c = '\n' || c = '\r' || c = '\x0b' || c = '\x0c'

/-- ASCII case folding, as performed by Python's `str.lower` on ASCII text. -/
def lowerChar (c : Char) : Char :=
  if 65 ≤ c.toNat && c.toNat ≤ 90 then Char.ofNat (c.toNat + 32) else c

/-- Python `str.lower` (ASCII model). -/
def pyLower (s : String) : String := String.mk (s.data.map lowerChar)

/-- Remove trailing characters satisfying `p`. -/
def dropTrailing (p : Char → Bool) (l : List Char) : List Char :=
  ((l.reverse.dropWhile p).reverse)

/-- Python `str.strip()` with no argument: remove leading and trailing
whitespace. -/
def pyStrip (s : String) : String :=
  String.mk (dropTrailing isPySpace (s.data.dropWhile isPySpace))

/-- Worker for `str.split()`: `acc` is the current word, reversed. -/
def pyWordsAux : List Char → List Char → List (List Char)
  | [], acc => if acc.isEmpty then [] else [acc.reverse]
  | c :: cs, acc =>
    if isPySpace c then
      if acc.isEmpty then pyWordsAux cs [] else acc.reverse :: pyWordsAux cs []
    else pyWordsAux cs (c :: acc)

/-- The maximal non-whitespace runs of a character list. -/
def pyWords (l : List Char) : List (List Char) := pyWordsAux l []

/-- Python `str.split()` with no argument: split on whitespace runs,
dropping empty pieces. -/
def pySplit (s : String) : List String := (pyWords s.data).map String.mk

/-- Python `" ".join(...)`. -/
def joinSpace : List String → String
  | [] => ""
  | [s] => s
  | s :: ss => s ++ " " ++ joinSpace ss

/-! ## Decimal rendering of naturals (used by the JSON serialisation model) -/

/-- Big-endian decimal digits of `n`, with `fuel ≥ n` steps available.
Structural recursion on the fuel keeps the definition kernel-reducible. -/
def natStrAux : Nat → Nat → List Char
  | 0, _ => []
  | fuel + 1, n =>
    if n = 0 then [] else natStrAux fuel (n / 10) ++ [Nat.digitChar (n % 10)]

/-- Decimal rendering of a natural number. -/
def natStr (n : Nat) : List Char := if n = 0 then ['0'] else natStrAux n n

/-- Decimal rendering of a natural number, as a string. -/
def natToString (n : Nat) : String := String.mk (natStr n)

/-! ## SHA-256 over byte lists (`hashlib.sha256`)

A direct transcription of FIPS 180-4 working over `Nat` with explicit
reduction mod 2^32; every recursion is structural so that the whole pipeline
reduces inside the kernel. -/

/-- Truncate to a 32-bit word. -/
def w32 (n : Nat) : Nat := n % 4294967296

/-- Right rotation of a 32-bit word. -/
def rotr (n x : Nat) : Nat := (x >>> n) ||| w32 (x <<< (32 - n))

def shaCh (x y z : Nat) : Nat := (x &&& y) ^^^ ((x ^^^ 4294967295) &&& z)

def shaMaj (x y z : Nat) : Nat := (x &&& y) ^^^ (x &&& z) ^^^ (y &&& z)

def bigSigma0 (x : Nat) : Nat := rotr 2 x ^^^ rotr 13 x ^^^ rotr 22 x

def bigSigma1 (x : Nat) : Nat := rotr 6 x ^^^ rotr 11 x ^^^ rotr 25 x

def smallSigma0 (x : Nat) : Nat := rotr 7 x ^^^ rotr 18 x ^^^ (x >>> 3)

def smallSigma1 (x : Nat) : Nat := rotr 17 x ^^^ rotr 19 x ^^^ (x >>> 10)

/-- The 64 SHA-256 round constants. -/
def K256 : List Nat :=
  [1116352408, 1899447441, 3049323471, 3921009573, 961987163,
   1508970993, 2453635748, 2870763221, 3624381080, 310598401,
   607225278, 1426881987, 1925078388, 2162078206, 2614888103,
   3248222580, 3835390401, 4022224774, 264347078, 604807628,
   770255983, 1249150122, 1555081692, 1996064986, 2554220882,
   2821834349, 2952996808, 3210313671, 3336571891, 3584528711,
   113926993, 338241895, 666307205, 773529912, 1294757372,
   1396182291, 1695183700, 1986661051, 2177026350, 2456956037,
   2730485921, 2820302411, 3259730800, 3345764771, 3516065817,
   3600352804, 4094571909, 275423344, 430227734, 506948616,
   659060556, 883997877, 958139571, 1322822218, 1537002063,
   1747873779, 1955562222, 2024104815, 2227730452, 2361852424,
   2428436474, 2756734187, 3204031479, 3329325298]

/-- The eight 32-bit words of a SHA-256 state. -/
structure Hash8 where
  a : Nat
  b : Nat
  c : Nat
  d : Nat
  e : Nat
  f : Nat
  g : Nat
  h : Nat
deriving DecidableEq, Repr

/-- SHA-256 initial hash value. -/
def initH : Hash8 :=
  ⟨1779033703, 3144134277, 1013904242, 2773480762,
   1359893119, 2600822924, 528734635, 1541459225⟩

/-- Extend a 16-word block by `n` further schedule words. -/
def scheduleExt : Nat → List Nat → List Nat
  | 0, ws => ws
  | n + 1, ws =>
    let i := ws.length
    let wnew := w32 (smallSigma1 (ws.getD (i - 2) 0) + ws.getD (i - 7) 0 +
      smallSigma0 (ws.getD (i - 15) 0) + ws.getD (i - 16) 0)
    scheduleExt n (ws ++ [wnew])

/-- One SHA-256 round on the eight working variables. -/
def shaRound (st : Hash8) (kw : Nat × Nat) : Hash8 :=
  let t1 := w32 (st.h + bigSigma1 st.e + shaCh st.e st.f st.g + kw.1 + kw.2)
  let t2 := w32 (bigSigma0 st.a + shaMaj st.a st.b st.c)
  ⟨w32 (t1 + t2), st.a, st.b, st.c, w32 (st.d + t1), st.e, st.f, st.g⟩

/-- Compress one 16-word block into the running hash value. -/
def shaCompress (hs : Hash8) (block : List Nat) : Hash8 :=
  let ws := scheduleExt 48 block
  let r := (K256.zip ws).foldl shaRound hs
  ⟨w32 (hs.a + r.a), w32 (hs.b + r.b), w32 (hs.c + r.c), w32 (hs.d + r.d),
   w32 (hs.e + r.e), w32 (hs.f + r.f), w32 (hs.g + r.g), w32 (hs.h + r.h)⟩

/-- The 8-byte big-endian encoding of a (mod 2^64) bit length. -/
def lenBytes (n : Nat) : List Nat :=
  [(n >>> 56) % 256, (n >>> 48) % 256, (n >>> 40) % 256, (n >>> 32) % 256,
   (n >>> 24) % 256, (n >>> 16) % 256, (n >>> 8) % 256, n % 256]

/-- SHA-256 padding: append `0x80`, zeros to 56 mod 64, and the bit length. -/
def padMsg (msg : List Nat) : List Nat :=
  let L := msg.length
  let k := (119 - L % 64) % 64
  msg ++ [128] ++ List.replicate k 0 ++ lenBytes (8 * L)

/-- Group bytes into big-endian 32-bit words. -/
def toWords : List Nat → List Nat
  | b0 :: b1 :: b2 :: b3 :: rest =>
    (b0 * 16777216 + b1 * 65536 + b2 * 256 + b3) :: toWords rest
  | _ => []

/-- Group a word list into 16-word blocks (fuel-driven for kernel reduction). -/
def toBlocksAux : Nat → List Nat → List (List Nat)
  | 0, _ => []
  | fuel + 1, ws =>
    match ws with
    | [] => []
    | w :: rest => ((w :: rest).take 16) :: toBlocksAux fuel ((w :: rest).drop 16)

/-- Group a word list into 16-word blocks. -/
def toBlocks (ws : List Nat) : List (List Nat) := toBlocksAux ws.length ws

/-- The SHA-256 digest of a byte list, as eight 32-bit words. -/
def sha256Words (msg : List Nat) : Hash8 :=
  (toBlocks (toWords (padMsg msg))).foldl shaCompress initH

/-- The eight lowercase hex characters of a 32-bit word. -/
def wordHexChars (w : Nat) : List Char :=
  [28, 24, 20, 16, 12, 8, 4, 0].map (fun i => Nat.digitChar ((w >>> i) % 16))

/-- The 64-character lowercase hex digest (`hashlib.sha256(...).hexdigest()`). -/
def hexDigest (s : Hash8) : List Char :=
  ([s.a, s.b, s.c, s.d, s.e, s.f, s.g, s.h].map wordHexChars).flatten

/-- UTF-8 encoding of one character (`str.encode()`). -/
def utf8Bytes (c : Char) : List Nat :=
  let n := c.toNat
  if n < 128 then [n]
  else if n < 2048 then [192 + n / 64, 128 + n % 64]
  else if n < 65536 then [224 + n / 4096, 128 + (n / 64) % 64, 128 + n % 64]
  else [240 + n / 262144, 128 + (n / 4096) % 64, 128 + (n / 64) % 64, 128 + n % 64]

/-- UTF-8 bytes of a string (`str.encode()`). -/
def strBytes (s : String) : List Nat := (s.data.map utf8Bytes).flatten

/-! ## Hash helpers of `src/app.py` (lines 46-57) -/

/-- `make_query_hash` (`app.py` line 46): normalise the query by stripping,
lowering and collapsing whitespace, then take the first 16 hex characters of
its SHA-256 digest. -/
def make_query_hash (q : String) : String :=
  let cleaned := joinSpace (pySplit (pyLower (pyStrip q)))
  String.mk ((hexDigest (sha256Words (strBytes cleaned))).take 16)

/-- `summary_cache_key` (`app.py` line 50). -/
def summary_cache_key (username q_hash : String) : String :=
  "cache:" ++ username ++ ":summary:" ++ q_hash

/-- `seen_key` (`app.py` line 53). -/
def seen_key (username q_hash : String) : String :=
  "cache:" ++ username ++ ":seen:" ++ q_hash

/-- `history_key` (`app.py` line 56). -/
def history_key (username : String) : String := "history:" ++ username

/-- `CACHE_TTL_SECONDS` (`app.py` line 16). -/
def CACHE_TTL_SECONDS : Nat := 30 * 60

/-- `SEEN_TTL_SECONDS` (`app.py` line 17). -/
def SEEN_TTL_SECONDS : Nat := 24 * 60 * 60

/-- `HISTORY_TTL_SECONDS` (`app.py` line 18). -/
def HISTORY_TTL_SECONDS : Nat := 7 * 24 * 60 * 60

/-! ## History records and their JSON serialisation

`save_to_history` stores `json.dumps(msg)` as a sorted-set member.  The
serialiser below follows `json.dumps` on the ASCII fragment (default
separators, insertion key order `ts, time, question, summary`); the record
timestamp is modelled as a natural number. -/

/-- One history record (`msg` dict of `app.py` line 63). -/
structure HistMsg where
  ts : Nat
  time : String
  question : String
  summary : String
deriving DecidableEq, Repr

/-- JSON string escaping of one character (`json.dumps`, ASCII model). -/
def escChar (c : Char) : List Char :=
  if c = '"' then ['\\', '"']
  else if c = '\\' then ['\\', '\\']
  else if c = '\n' then ['\\', 'n']
  else if c = '\t' then ['\\', 't']
  else if c = '\r' then ['\\', 'r']
  else if c.toNat = 8 then ['\\', 'b']
  else if c.toNat = 12 then ['\\', 'f']
  else if c.toNat < 32 then
    ['\\', 'u', '0', '0', Nat.digitChar (c.toNat / 16), Nat.digitChar (c.toNat % 16)]
  else [c]

/-- JSON string escaping of a character list. -/
def escList (l : List Char) : List Char := (l.map escChar).flatten

/-- A JSON string literal, quotes included. -/
def jsonQuote (s : String) : String := "\"" ++ String.mk (escList s.data) ++ "\""

/-- `json.dumps(msg)` for a history record. -/
def serializeMsg (m : HistMsg) : String :=
  "\x7b\"ts\": " ++ natToString m.ts ++ ", \"time\": " ++ jsonQuote m.time ++
  ", \"question\": " ++ jsonQuote m.question ++ ", \"summary\": " ++
  jsonQuote m.summary ++ "\x7d"

/-! ### The matching decoder (`json.loads` restricted to this record shape) -/

/-- Consume an expected literal prefix. -/
def dropPre : List Char → List Char → Option (List Char)
  | [], l => some l
  | p :: ps, c :: cs => if c = p then dropPre ps cs else none
  | _ :: _, [] => none

/-- Split off a leading run of decimal digits. -/
def spanDigits (l : List Char) : List Char × List Char :=
  (l.takeWhile Char.isDigit, l.dropWhile Char.isDigit)

/-- Value of a big-endian digit run. -/
def digitsVal (l : List Char) : Nat := l.foldl (fun a c => 10 * a + (c.toNat - 48)) 0

/-- Value of a lowercase hex digit. -/
def hexVal (c : Char) : Nat := if c.isDigit then c.toNat - 48 else c.toNat - 87

/-- Prepend a decoded character to the first component. -/
def consFst (c : Char) : Option (List Char × List Char) → Option (List Char × List Char) :=
  Option.map (fun p => (c :: p.1, p.2))

/-- Decode a JSON-escaped run up to its closing quote, returning the decoded
characters and the remainder after the quote. -/
def unescQuote : List Char → Option (List Char × List Char)
  | [] => none
  | c :: cs =>
    if c = '"' then some ([], cs)
    else if c = '\\' then
      match cs with
      | [] => none
      | d :: ds =>
        if d = '"' then consFst '"' (unescQuote ds)
        else if d = '\\' then consFst '\\' (unescQuote ds)
        else if d = 'n' then consFst '\n' (unescQuote ds)
        else if d = 't' then consFst '\t' (unescQuote ds)
        else if d = 'r' then consFst '\r' (unescQuote ds)
        else if d = 'b' then consFst (Char.ofNat 8) (unescQuote ds)
        else if d = 'f' then consFst (Char.ofNat 12) (unescQuote ds)
        else if d = 'u' then
          match ds with
          | e1 :: e2 :: h1 :: h2 :: es =>
            if e1 = '0' ∧ e2 = '0' then
              consFst (Char.ofNat (16 * hexVal h1 + hexVal h2)) (unescQuote es)
            else none
          | _ => none
        else none
    else consFst c (unescQuote cs)

/-- Parse the serialised form of a history record (`json.loads` on the record
shape written by `save_to_history`). -/
def parseMsgL (l : List Char) : Option HistMsg := do
  let r1 ← dropPre ("\x7b\"ts\": ".data) l
  let (ds, r2) := spanDigits r1
  if ds.isEmpty then none else do
  let r3 ← dropPre (", \"time\": \"".data) r2
  let (t, r4) ← unescQuote r3
  let r5 ← dropPre (", \"question\": \"".data) r4
  let (q, r6) ← unescQuote r5
  let r7 ← dropPre (", \"summary\": \"".data) r6
  let (s, r8) ← unescQuote r7
  if r8 = "\x7d".data then some ⟨digitsVal ds, String.mk t, String.mk q, String.mk s⟩
  else none

/-- Parse a serialised history record from a string. -/
def parseMsg (s : String) : Option HistMsg := parseMsgL s.data

/-! ## Timestamp formatting (`datetime.fromtimestamp(ts).strftime`)

Civil-from-days conversion (proleptic Gregorian, UTC model of the local
timezone used by the source). -/

/-- Zero-padded two-digit rendering (`%m`, `%d`, `%H`, `%M`). -/
def pad2 (n : Nat) : String := if n < 10 then "0" ++ natToString n else natToString n

/-- Format a Unix timestamp as an ISO-like minute-precision string, the shape
produced by `strftime("%Y-%m-%d %H:%M")`. -/
def fmtTime (ts : Nat) : String :=
  let days := ts / 86400
  let secs := ts % 86400
  let z := days + 719468
  let era := z / 146097
  let doe := z % 146097
  let yoe := (doe - doe / 1460 + doe / 36524 - doe / 146096) / 365
  let y0 := yoe + era * 400
  let doy := doe - (365 * yoe + yoe / 4 - yoe / 100)
  let mp := (5 * doy + 2) / 153
  let d := doy - (153 * mp + 2) / 5 + 1
  let m := if mp < 10 then mp + 3 else mp - 9
  let y := if m ≤ 2 then y0 + 1 else y0
  natToString y ++ "-" ++ pad2 m ++ "-" ++ pad2 d ++ " " ++
    pad2 (secs / 3600) ++ ":" ++ pad2 (secs % 3600 / 60)

/-! ## The Redis backend as an explicit state

String keys map to a value and an absolute expiry instant (`SETEX` always
supplies a TTL in this program).  Sorted-set keys map to member/score pairs
plus an optional expiry instant (`ZADD` leaves the TTL untouched; `EXPIRE`
sets it).  A key whose expiry instant is not in the future is logically
absent. -/

/-- The key-value backend state. -/
structure RedisState where
  strs : List (String × String × Nat)
  zsets : List (String × (List (String × Int) × Option Nat))
deriving DecidableEq, Repr

/-- The empty backend. -/
def RedisState.empty : RedisState := ⟨[], []⟩

/-- `GET key` at instant `now`. -/
def rget (st : RedisState) (now : Nat) (k : String) : Option String :=
  match st.strs.lookup k with
  | some (v, exp) => if now < exp then some v else none
  | none => none

/-- `SETEX key ttl value` at instant `now`. -/
def rsetex (st : RedisState) (now : Nat) (k : String) (ttl : Nat) (v : String) :
    RedisState :=
  { st with strs := (k, v, now + ttl) :: st.strs.filter (fun p => p.1 ≠ k) }

/-- Is an optional expiry instant still live at `now`? -/
def liveExp (now : Nat) : Option Nat → Bool
  | none => true
  | some e => decide (now < e)

/-- The member/score pairs of a live sorted set. -/
def zsetLive (st : RedisState) (now : Nat) (k : String) :
    Option (List (String × Int)) :=
  match st.zsets.lookup k with
  | some (ms, exp) => if liveExp now exp then some ms else none
  | none => none

/-- `EXISTS key` at instant `now`. -/
def rexists (st : RedisState) (now : Nat) (k : String) : Bool :=
  (rget st now k).isSome || (zsetLive st now k).isSome

/-- Replace the sorted set stored under `k`. -/
def setZset (st : RedisState) (k : String)
    (v : List (String × Int) × Option Nat) : RedisState :=
  { st with zsets := (k, v) :: st.zsets.filter (fun p => p.1 ≠ k) }

/-- Insert a member with its score, overwriting the score if the member is
already present (`ZADD` member semantics). -/
def zaddOne (ms : List (String × Int)) (m : String) (sc : Int) :
    List (String × Int) :=
  if ms.any (fun p => p.1 = m) then
    ms.map (fun p => if p.1 = m then (m, sc) else p)
  else ms ++ [(m, sc)]

/-- `ZADD key score member` at instant `now`: a dead key is recreated fresh
with no expiry; a live key keeps its stored expiry. -/
def rzadd (st : RedisState) (now : Nat) (k m : String) (sc : Int) : RedisState :=
  match st.zsets.lookup k with
  | some (ms, exp) =>
    if liveExp now exp then setZset st k (zaddOne ms m sc, exp)
    else setZset st k (zaddOne [] m sc, none)
  | none => setZset st k (zaddOne [] m sc, none)

/-- `EXPIRE key ttl` at instant `now`: reset the expiry of a live key. -/
def rexpire (st : RedisState) (now : Nat) (k : String) (ttl : Nat) : RedisState :=
  { strs := st.strs.map (fun p =>
      if p.1 = k && decide (now < p.2.2) then (p.1, p.2.1, now + ttl) else p),
    zsets := st.zsets.map (fun p =>
      if p.1 = k && liveExp now p.2.2 then (p.1, (p.2.1, some (now + ttl))) else p) }

/-- `DELETE key`. -/
def rdel (st : RedisState) (k : String) : RedisState :=
  { strs := st.strs.filter (fun p => p.1 ≠ k),
    zsets := st.zsets.filter (fun p => p.1 ≠ k) }

/-- Ascending sorted-set insertion: by score, ties by member. -/
def zinsert (p : String × Int) : List (String × Int) → List (String × Int)
  | [] => [p]
  | q :: qs =>
    if p.2 < q.2 ∨ (p.2 = q.2 ∧ p.1 ≤ q.1) then p :: q :: qs else q :: zinsert p qs

/-- Sort member/score pairs ascending (Redis sorted-set order). -/
def zsortAsc : List (String × Int) → List (String × Int)
  | [] => []
  | p :: ps => zinsert p (zsortAsc ps)

/-- `ZREVRANGE key start stop` at instant `now`: members from highest to
lowest score (ties by reverse member order). -/
def zrevrange (st : RedisState) (now : Nat) (k : String) (start stop : Nat) :
    List String :=
  match zsetLive st now k with
  | none => []
  | some ms => ((((zsortAsc ms).reverse).drop start).take (stop + 1 - start)).map (·.1)

/-! ## Observable backend / model operations

`handle_question` and the history helpers also return the list of external
calls they issued, in order; this makes "no model call", "no cache write" and
the key-layout claims directly statable. -/

/-- One observable external call. -/
inductive Op where
  | get (k : String)
  | exists_ (k : String)
  | setex (k : String) (ttl : Nat) (v : String)
  | zadd (k : String) (member : String) (score : Int)
  | expire (k : String) (ttl : Nat)
  | del (k : String)
  | llmFull (prompt : String)
  | llmSummary (prompt : String)
deriving DecidableEq, Repr

/-! ## History helpers of `src/app.py` (lines 60-78) -/

/-- `save_to_history` (`app.py` line 60): serialise the record, `ZADD` it with
score `-ts`, and re-`EXPIRE` the whole per-user log.  The record timestamp is
the current instant (`ts = time.time()`). -/
def save_to_history (st : RedisState) (now : Nat)
    (username question summary : String) : RedisState × List Op :=
  let key := history_key username
  let msg : HistMsg := ⟨now, fmtTime now, question, summary⟩
  let member := serializeMsg msg
  let st1 := rzadd st now key member (-(now : Int))
  let st2 := rexpire st1 now key HISTORY_TTL_SECONDS
  (st2, [.zadd key member (-(now : Int)), .expire key HISTORY_TTL_SECONDS])

/-- `load_history` (`app.py` line 72): `ZREVRANGE key 0 49`, keep truthy
(non-empty) items, and `json.loads` each of them (a parse failure models the
exception `json.loads` would raise). -/
def load_history (st : RedisState) (now : Nat) (username : String) :
    Option (List HistMsg) :=
  let items := zrevrange st now (history_key username) 0 49
  (items.filter (fun s => s ≠ "")).mapM parseMsg

/-- `clear_history` (`app.py` line 77): delete the per-user history key and
nothing else. -/
def clear_history (st : RedisState) (username : String) : RedisState × List Op :=
  (rdel st (history_key username), [.del (history_key username)])

/-! ## The question-handling block of `src/app.py` (lines 178-246) -/

/-- How a request run ends. -/
inductive Outcome where
  /-- The question was empty after stripping: `st.rerun()` with no effect. -/
  | rerunEmpty
  /-- An answer was shown: a cached-summary hit or a full-answer miss. -/
  | answered (hit : Bool) (shown : String)
  /-- A model call raised: `st.error` followed by `st.rerun()`. -/
  | modelError (e : String)
deriving DecidableEq, Repr

/-- Python truthiness of an optional string (`None` and the empty string are
falsy), as used by the cache-hit test on line 196. -/
def truthy : Option String → Bool
  | none => false
  | some v => v ≠ ""

/-- The summary-request prompt prefix (`app.py` line 219). -/
def summaryPromptPre : String :=
  "Create an extremely concise summary in **1–3 short sentences maximum**. " ++
  "No examples, no lists, no code blocks, be as brief as possible:\n\n"

/-- The question-handling block (`app.py` lines 178-246).  `llmFull` and
`llmSummary` are the two Groq chat-completion calls (distinct parameter sets
in the source); each returns the message content or the raised error.  Returns
the outcome, the final backend state and the external calls issued. -/
def handle_question (llmFull llmSummary : String → Except String String)
    (st : RedisState) (now : Nat) (username rawQ : String) :
    Outcome × RedisState × List Op :=
  let question := pyStrip rawQ
  if question = "" then (.rerunEmpty, st, [])
  else
    let q_hash := make_query_hash question
    let summary_key := "cache:" ++ username ++ ":summary:" ++ q_hash
    let seen_key' := "cache:" ++ username ++ ":seen:" ++ q_hash
    let cached_summary := rget st now summary_key
    let has_seen_full := rexists st now seen_key'
    let reads : List Op := [.get summary_key, .exists_ seen_key']
    if truthy cached_summary && has_seen_full then
      let shown := cached_summary.getD ""
      let (st', hOps) := save_to_history st now username question shown
      (.answered true shown, st', reads ++ hOps)
    else
      match llmFull question with
      | .error e => (.modelError e, st, reads ++ [.llmFull question])
      | .ok fullRaw =>
        let full_text := pyStrip fullRaw
        let summary_prompt := summaryPromptPre ++ full_text
        match llmSummary summary_prompt with
        | .error e =>
          (.modelError e, st, reads ++ [.llmFull question, .llmSummary summary_prompt])
        | .ok sRaw =>
          let summary_text := pyStrip sRaw
          let st1 := rsetex st now summary_key CACHE_TTL_SECONDS summary_text
          let st2 := rsetex st1 now seen_key' SEEN_TTL_SECONDS "1"
          let (st3, hOps) := save_to_history st2 now username question summary_text
          (.answered false full_text, st3,
            reads ++ [.llmFull question, .llmSummary summary_prompt,
              .setex summary_key CACHE_TTL_SECONDS summary_text,
              .setex seen_key' SEEN_TTL_SECONDS "1"] ++ hOps)

/-! ## Character-level facts -/

theorem char_eq_of_toNat_eq {c d : Char} (h : c.toNat = d.toNat) : c = d :=
  Char.ext (UInt32.ext h)

theorem charOfNat_toNat {n : Nat} (h : n < 55296) : (Char.ofNat n).toNat = n := by
  have hv : n.isValidChar := Or.inl h
  simp [Char.ofNat, hv, Char.toNat, Char.ofNatAux, UInt32.toNat, BitVec.toNat_ofNatLt]

theorem isPySpace_iff (c : Char) :
    isPySpace c = true ↔
      (c.toNat = 32 ∨ c.toNat = 9 ∨ c.toNat = 10 ∨ c.toNat = 13 ∨
       c.toNat = 11 ∨ c.toNat = 12) := by
  unfold isPySpace
  simp only [Bool.or_eq_true, decide_eq_true_eq]
  constructor
  · rintro (((((rfl | rfl) | rfl) | rfl) | rfl) | rfl) <;> simp [Char.toNat]
  · rintro (h | h | h | h | h | h)
    · exact Or.inl (Or.inl (Or.inl (Or.inl (Or.inl (char_eq_of_toNat_eq (h.trans (by decide)))))))
    · exact Or.inl (Or.inl (Or.inl (Or.inl (Or.inr (char_eq_of_toNat_eq (h.trans (by decide)))))))
    · exact Or.inl (Or.inl (Or.inl (Or.inr (char_eq_of_toNat_eq (h.trans (by decide))))))
    · exact Or.inl (Or.inl (Or.inr (char_eq_of_toNat_eq (h.trans (by decide)))))
    · exact Or.inl (Or.inr (char_eq_of_toNat_eq (h.trans (by decide))))
    · exact Or.inr (char_eq_of_toNat_eq (h.trans (by decide)))

theorem isPySpace_lowerChar (c : Char) : isPySpace (lowerChar c) = isPySpace c := by
  by_cases h : 65 ≤ c.toNat ∧ c.toNat ≤ 90
  · have h1 : lowerChar c = Char.ofNat (c.toNat + 32) := by
      simp [lowerChar, h.1, h.2]
    have ht : (Char.ofNat (c.toNat + 32)).toNat = c.toNat + 32 :=
      charOfNat_toNat (by omega)
    have hl : isPySpace (Char.ofNat (c.toNat + 32)) = false := by
      rw [Bool.eq_false_iff]
      intro hc
      rcases (isPySpace_iff _).1 hc with hx | hx | hx | hx | hx | hx <;> omega
    have hr : isPySpace c = false := by
      rw [Bool.eq_false_iff]
      intro hc
      rcases (isPySpace_iff _).1 hc with hx | hx | hx | hx | hx | hx <;> omega
    rw [h1, hl, hr]
  · have h1 : lowerChar c = c := by
      unfold lowerChar
      rcases Nat.lt_or_ge c.toNat 65 with hlt | hge
      · simp [Nat.not_le.2 hlt]
      · have : ¬ c.toNat ≤ 90 := fun hle => h ⟨hge, hle⟩
        simp [this]
    rw [h1]

/-! ## `str.split` is invariant under stripping -/

theorem pyWordsAux_dropWhile (l : List Char) :
    pyWordsAux (l.dropWhile isPySpace) [] = pyWordsAux l [] := by
  induction l with
  | nil => rfl
  | cons c cs ih =>
    by_cases h : isPySpace c
    · simpa [List.dropWhile_cons, h, pyWordsAux] using ih
    · simp [List.dropWhile_cons, h]

theorem pyWordsAux_all_space (ws : List Char) (acc : List Char)
    (hws : ∀ c ∈ ws, isPySpace c = true) :
    pyWordsAux ws acc = if acc.isEmpty then [] else [acc.reverse] := by
  induction ws generalizing acc with
  | nil => rfl
  | cons c cs ih =>
    have hc : isPySpace c = true := hws c (by simp)
    have hcs : ∀ x ∈ cs, isPySpace x = true := fun x hx => hws x (by simp [hx])
    have hnil : pyWordsAux cs [] = [] := by simpa using ih [] hcs
    by_cases ha : acc.isEmpty
    · simp [pyWordsAux, hc, ha, hnil]
    · simp [pyWordsAux, hc, ha, hnil]

theorem pyWordsAux_append_space (ws : List Char)
    (hws : ∀ c ∈ ws, isPySpace c = true) :
    ∀ (l : List Char) (acc : List Char), pyWordsAux (l ++ ws) acc = pyWordsAux l acc := by
  intro l
  induction l with
  | nil =>
    intro acc
    rw [List.nil_append, pyWordsAux_all_space ws acc hws]
    rfl
  | cons c cs ih =>
    intro acc
    by_cases h : isPySpace c
    · by_cases ha : acc.isEmpty
      · simp [pyWordsAux, h, ha, ih]
      · simp [pyWordsAux, h, ha, ih]
    · simp [pyWordsAux, h, ih]

theorem dropTrailing_append (p : Char → Bool) (m : List Char) :
    dropTrailing p m ++ (m.reverse.takeWhile p).reverse = m := by
  unfold dropTrailing
  rw [← List.reverse_append, List.takeWhile_append_dropWhile, List.reverse_reverse]

theorem pyWords_dropTrailing (m : List Char) :
    pyWords (dropTrailing isPySpace m) = pyWords m := by
  conv_rhs => rw [← dropTrailing_append isPySpace m]
  unfold pyWords
  refine (pyWordsAux_append_space _ ?_ _ []).symm
  intro c hc
  exact List.mem_takeWhile_imp (List.mem_reverse.1 hc)

theorem pyWords_strip (l : List Char) :
    pyWords (dropTrailing isPySpace (l.dropWhile isPySpace)) = pyWords l := by
  rw [pyWords_dropTrailing]
  exact pyWordsAux_dropWhile l

theorem dropWhile_map_lowerChar (l : List Char) :
    (l.map lowerChar).dropWhile isPySpace = (l.dropWhile isPySpace).map lowerChar := by
  induction l with
  | nil => rfl
  | cons c cs ih =>
    by_cases h : isPySpace c
    · simp [List.dropWhile_cons, isPySpace_lowerChar, h, ih]
    · simp [List.dropWhile_cons, isPySpace_lowerChar, h]

theorem dropTrailing_map_lowerChar (m : List Char) :
    dropTrailing isPySpace (m.map lowerChar) = (dropTrailing isPySpace m).map lowerChar := by
  unfold dropTrailing
  rw [← List.map_reverse, dropWhile_map_lowerChar, List.map_reverse]

theorem pyStrip_pyLower (s : String) : pyStrip (pyLower s) = pyLower (pyStrip s) := by
  unfold pyStrip pyLower
  simp only [dropWhile_map_lowerChar, dropTrailing_map_lowerChar]

theorem pySplit_strip_lower (t : String) :
    pySplit (pyLower (pyStrip t)) = pySplit (pyLower t) := by
  rw [← pyStrip_pyLower]
  unfold pySplit pyStrip
  congr 1
  exact pyWords_strip (pyLower t).data

/-! ## The fingerprint is a 16-character lowercase hex identifier -/

/-- The sixteen lowercase hex digits. -/
def hexChars : List Char := "0123456789abcdef".data

theorem digitChar_mod16_mem_hexChars (n : Nat) : Nat.digitChar (n % 16) ∈ hexChars := by
  have hall : ∀ m : Fin 16, Nat.digitChar m.val ∈ hexChars := by decide
  exact hall ⟨n % 16, Nat.mod_lt _ (by norm_num)⟩

theorem mem_hexDigest (s : Hash8) (c : Char) (hc : c ∈ hexDigest s) : c ∈ hexChars := by
  simp only [hexDigest, List.mem_flatten, List.mem_map] at hc
  obtain ⟨l, ⟨w, _, rfl⟩, hcl⟩ := hc
  simp only [wordHexChars, List.mem_map] at hcl
  obtain ⟨i, _, rfl⟩ := hcl
  exact digitChar_mod16_mem_hexChars _

theorem length_hexDigest (s : Hash8) : (hexDigest s).length = 64 := by
  simp [hexDigest, wordHexChars]

/-- **C4.** The fingerprint function `make_query_hash` is invariant under
differences of letter case and whitespace (leading/trailing runs and interior
run lengths): two inputs with the same case-folded word sequence hash
identically.  Moreover it is total and deterministic by construction (a pure
function defined for every string, the empty string included) and always
produces a 16-character identifier drawn from the lowercase hex alphabet. -/
theorem make_query_hash_normalised_and_hex (t t' : String) :
    (pySplit (pyLower t) = pySplit (pyLower t') →
      make_query_hash t = make_query_hash t') ∧
    (make_query_hash t).length = 16 ∧
    (∀ c ∈ (make_query_hash t).data, c ∈ hexChars) := by
  refine ⟨?_, ?_, ?_⟩
  · intro h
    unfold make_query_hash
    have hc : pySplit (pyLower (pyStrip t)) = pySplit (pyLower (pyStrip t')) := by
      rw [pySplit_strip_lower, pySplit_strip_lower, h]
    rw [hc]
  · show ((hexDigest (sha256Words _)).take 16).length = 16
    rw [List.length_take, length_hexDigest]
    rfl
  · intro c hc
    have hc' : c ∈ (hexDigest (sha256Words (strBytes (joinSpace (pySplit (pyLower (pyStrip t))))))).take 16 := hc
    exact mem_hexDigest _ _ (List.take_subset _ _ hc')

/-- Witness for C4 at concrete inputs differing in case and whitespace. -/
theorem make_query_hash_normalised_and_hex_witness :
    pySplit (pyLower "  Hello   WORLD ") = pySplit (pyLower "hello world") ∧
    make_query_hash "  Hello   WORLD " = make_query_hash "hello world" :=
  ⟨by decide, (make_query_hash_normalised_and_hex "  Hello   WORLD " "hello world").1 (by decide)⟩

set_option maxRecDepth 10000

/-! ## C7: empty questions are rejected before any backend call -/

/-- **C7.** A question that strips to the empty string makes the handler stop
(`st.rerun()`) with the backend state untouched and an empty call trace: no
cache read or write, no seen flag, no history append, and no model call. -/
theorem handle_question_empty_rejected
    (llmF llmS : String → Except String String) (st : RedisState) (now : Nat)
    (u rawQ : String) (h : pyStrip rawQ = "") :
    handle_question llmF llmS st now u rawQ = (.rerunEmpty, st, []) := by
  simp [handle_question, h]

/-- Witness for C7: a whitespace-only question. -/
theorem handle_question_empty_rejected_witness :
    pyStrip " \t  " = "" ∧
    handle_question (fun _ => .error "e") (fun _ => .error "e")
      RedisState.empty 0 "u" " \t  " = (.rerunEmpty, RedisState.empty, []) :=
  ⟨by decide, handle_question_empty_rejected _ _ _ _ _ _ (by decide)⟩

/-! ## C1: the history read path returns oldest-first -/

/-- **C1** (code bug).  `save_to_history` stores each record with score `-ts`
(the comment on line 69 of the source says "negative for DESC order"), but
`load_history` reads with `ZREVRANGE`, which returns members from highest to
lowest score.  The two reversals cancel: after appending records at times 1
and 2, `load_history` returns the timestamps in ascending order `[1, 2]` —
oldest first — where the specified behaviour (and the UI caption "latest
first") requires `[2, 1]`.  For the same reason the `0..49` range keeps the
50 oldest records, not the 50 most recent. -/
theorem load_history_returns_oldest_first :
    (load_history
        (save_to_history
          (save_to_history RedisState.empty 1 "u" "q1" "s1").1 2 "u" "q2" "s2").1
        2 "u").map (fun l => l.map HistMsg.ts) = some [1, 2] := by
  decide


/-! ## Association-list and state-operation lemmas -/

theorem lookup_filter_ne {β : Type} (a k : String) (l : List (String × β))
    (h : a ≠ k) : (l.filter (fun p => p.1 ≠ k)).lookup a = l.lookup a := by
  induction l with
  | nil => rfl
  | cons p ps ih =>
    obtain ⟨b, v⟩ := p
    rw [List.filter_cons]
    by_cases hb : b = k
    · rw [if_neg (by simp [hb]), ih]
      have hne : (a == b) = false := by simp [hb ▸ h]
      simp [List.lookup_cons, hne]
    · rw [if_pos (by simp [hb])]
      by_cases hab : a = b
      · subst hab
        simp [List.lookup_cons]
      · have hne : (a == b) = false := by simp [hab]
        simp only [List.lookup_cons, hne]
        exact ih

theorem lookup_filter_self {β : Type} (k : String) (l : List (String × β)) :
    (l.filter (fun p => p.1 ≠ k)).lookup k = none := by
  induction l with
  | nil => rfl
  | cons p ps ih =>
    obtain ⟨b, v⟩ := p
    rw [List.filter_cons]
    by_cases hb : b = k
    · rw [if_neg (by simp [hb])]
      exact ih
    · rw [if_pos (by simp [hb])]
      have hne : (k == b) = false := by simp [Ne.symm hb]
      simp only [List.lookup_cons, hne]
      exact ih

theorem lookup_map_keyfix {γ : Type} (a k : String) (f : String × γ → String × γ)
    (hf : ∀ p, p.1 ≠ k → f p = p) (hk : ∀ p, (f p).1 = p.1)
    (l : List (String × γ)) (h : a ≠ k) : (l.map f).lookup a = l.lookup a := by
  induction l with
  | nil => rfl
  | cons p ps ih =>
    obtain ⟨b, v⟩ := p
    rw [List.map_cons]
    rcases hfp : f (b, v) with ⟨b2, v2⟩
    have hb2 : b2 = b := by
      have hx := hk (b, v)
      rw [hfp] at hx
      exact hx
    rw [hb2] at hfp ⊢
    by_cases hp : b = k
    · have hab : a ≠ b := fun hab => h (hab.trans hp)
      have hne : (a == b) = false := by simp [hab]
      simp only [List.lookup_cons, hne]
      exact ih
    · have hfeq := hf (b, v) hp
      rw [hfp] at hfeq
      have hv : v2 = v := by
        injection hfeq with h1 h2
      rw [hv]
      by_cases hab : a = b
      · have he : (a == b) = true := by simp [hab]
        simp only [List.lookup_cons, he]
      · have hne : (a == b) = false := by simp [hab]
        simp only [List.lookup_cons, hne]
        exact ih

theorem rget_rsetex_same (st : RedisState) (now now' : Nat) (k : String)
    (ttl : Nat) (v : String) :
    rget (rsetex st now k ttl v) now' k =
      if now' < now + ttl then some v else none := by
  have he : (k == k) = true := by simp
  simp only [rget, rsetex, List.lookup_cons, he]

theorem rget_rsetex_other (st : RedisState) (now now' : Nat) (k a : String)
    (ttl : Nat) (v : String) (h : a ≠ k) :
    rget (rsetex st now k ttl v) now' a = rget st now' a := by
  have hne : (a == k) = false := by simp [h]
  simp only [rget, rsetex, List.lookup_cons, hne]
  rw [lookup_filter_ne a k _ h]

theorem zsetLive_rsetex (st : RedisState) (now now' : Nat) (k a : String)
    (ttl : Nat) (v : String) :
    zsetLive (rsetex st now k ttl v) now' a = zsetLive st now' a := rfl

theorem rget_rzadd (st : RedisState) (now now' : Nat) (k m a : String) (sc : Int) :
    rget (rzadd st now k m sc) now' a = rget st now' a := by
  unfold rzadd
  rcases st.zsets.lookup k with _ | ⟨ms, exp⟩
  · rfl
  · by_cases hle : liveExp now exp
    · simp only [hle]
      rfl
    · simp only [hle]
      rfl

theorem rget_rexpire_other (st : RedisState) (now now' : Nat) (k a : String)
    (ttl : Nat) (h : a ≠ k) :
    rget (rexpire st now k ttl) now' a = rget st now' a := by
  unfold rget rexpire
  rw [lookup_map_keyfix a k _ ?_ ?_ _ h]
  · intro p hp
    have hc : (decide (p.1 = k) && decide (now < p.2.2)) = false := by simp [hp]
    simp [hc]
  · intro p
    by_cases hc : (decide (p.1 = k) && decide (now < p.2.2)) = true
    · simp [hc]
    · simp [hc]

theorem zsetLive_rdel_self (st : RedisState) (now : Nat) (k : String) :
    zsetLive (rdel st k) now k = none := by
  simp only [zsetLive, rdel]
  rw [lookup_filter_self]

theorem rget_rdel (st : RedisState) (now : Nat) (k a : String) (h : a ≠ k) :
    rget (rdel st k) now a = rget st now a := by
  simp only [rget, rdel]
  rw [lookup_filter_ne a k _ h]

theorem strs_rdel (st : RedisState) (k : String) :
    (rdel st k).strs = st.strs.filter (fun p => p.1 ≠ k) := rfl

theorem rget_save_to_history (st : RedisState) (now now' : Nat)
    (u q s a : String) (h : a ≠ history_key u) :
    rget (save_to_history st now u q s).1 now' a = rget st now' a := by
  unfold save_to_history
  rw [rget_rexpire_other _ _ _ _ _ _ h, rget_rzadd]

/-! ## Key-shape distinctness -/

theorem summary_key_ne_seen_key (u h : String) :
    summary_cache_key u h ≠ seen_key u h := by
  intro he
  have hlen := congrArg String.length he
  simp only [summary_cache_key, seen_key, String.length_append] at hlen
  have h1 : ":summary:".length = 9 := by decide
  have h2 : ":seen:".length = 6 := by decide
  omega

theorem summary_key_ne_history_key (u h u' : String) :
    summary_cache_key u h ≠ history_key u' := by
  intro he
  have hd := congrArg (fun s => s.data.head?) he
  simp [summary_cache_key, history_key, String.data_append] at hd

theorem seen_key_ne_history_key (u h u' : String) :
    seen_key u h ≠ history_key u' := by
  intro he
  have hd := congrArg (fun s => s.data.head?) he
  simp [seen_key, history_key, String.data_append] at hd

/-! ## C2: the clear operation -/

/-- **C2** (amended).  `clear_history` deletes the per-user history log only:
afterwards `load_history` for that user is empty and the single backend call
is the deletion of the history key; cache entries and seen flags — for any
user and fingerprint — are untouched, so a previously cached question remains
a cache hit rather than becoming a fresh miss. -/
theorem clear_history_removes_only_history (st : RedisState) (now : Nat)
    (u u' h : String) :
    load_history (clear_history st u).1 now u = some [] ∧
    rget (clear_history st u).1 now (summary_cache_key u' h) =
      rget st now (summary_cache_key u' h) ∧
    rget (clear_history st u).1 now (seen_key u' h) =
      rget st now (seen_key u' h) ∧
    (clear_history st u).2 = [Op.del (history_key u)] := by
  refine ⟨?_, ?_, ?_, rfl⟩
  · unfold load_history clear_history
    simp [zrevrange, zsetLive_rdel_self]
    rfl
  · exact rget_rdel _ _ _ _ (summary_key_ne_history_key u' h u)
  · exact rget_rdel _ _ _ _ (seen_key_ne_history_key u' h u)

/-- Counterexample to **C2** as stated: with a populated cache, clearing the
user's state leaves the cache entry and seen flag in place, and the next
identical question is a cache hit (no fresh miss), even though the history is
gone. -/
theorem clear_history_counterexample :
    (let h := make_query_hash "hi"
     let st : RedisState :=
       ⟨[(summary_cache_key "u" h, "SUM", 100), (seen_key "u" h, "1", 100)],
        [(history_key "u", ([("x", -1)], none))]⟩
     let st' := (clear_history st "u").1
     rget st' 10 (summary_cache_key "u" h) = some "SUM" ∧
     rexists st' 10 (seen_key "u" h) = true ∧
     load_history st' 10 "u" = some [] ∧
     (handle_question (fun _ => .error "m") (fun _ => .error "m") st' 10 "u" "hi").1 =
       .answered true "SUM") := by
  decide

/-! ## Branch-reduction lemmas for the question handler -/

theorem handle_question_hit (llmF llmS : String → Except String String)
    (st : RedisState) (now : Nat) (u rawQ q v : String)
    (hq : pyStrip rawQ = q) (hne : q ≠ "")
    (hv : rget st now (summary_cache_key u (make_query_hash q)) = some v)
    (hvne : v ≠ "")
    (hseen : rexists st now (seen_key u (make_query_hash q)) = true) :
    handle_question llmF llmS st now u rawQ =
      (.answered true v, (save_to_history st now u q v).1,
        [Op.get (summary_cache_key u (make_query_hash q)),
         Op.exists_ (seen_key u (make_query_hash q))] ++
          (save_to_history st now u q v).2) := by
  simp only [summary_cache_key, seen_key] at hv hseen ⊢
  simp only [handle_question, hq, hv, hseen, save_to_history]
  rw [if_neg hne]
  simp [truthy, hvne]

theorem handle_question_miss_ok (llmF llmS : String → Except String String)
    (st : RedisState) (now : Nat) (u rawQ q full sum : String)
    (hq : pyStrip rawQ = q) (hne : q ≠ "")
    (hmiss : (truthy (rget st now (summary_cache_key u (make_query_hash q))) &&
      rexists st now (seen_key u (make_query_hash q))) = false)
    (hfull : llmF q = .ok full)
    (hsum : llmS (summaryPromptPre ++ pyStrip full) = .ok sum) :
    handle_question llmF llmS st now u rawQ =
      (.answered false (pyStrip full),
       (save_to_history
         (rsetex (rsetex st now (summary_cache_key u (make_query_hash q))
             CACHE_TTL_SECONDS (pyStrip sum))
           now (seen_key u (make_query_hash q)) SEEN_TTL_SECONDS "1")
         now u q (pyStrip sum)).1,
       [Op.get (summary_cache_key u (make_query_hash q)),
        Op.exists_ (seen_key u (make_query_hash q)),
        Op.llmFull q, Op.llmSummary (summaryPromptPre ++ pyStrip full),
        Op.setex (summary_cache_key u (make_query_hash q)) CACHE_TTL_SECONDS (pyStrip sum),
        Op.setex (seen_key u (make_query_hash q)) SEEN_TTL_SECONDS "1"] ++
         (save_to_history
           (rsetex (rsetex st now (summary_cache_key u (make_query_hash q))
               CACHE_TTL_SECONDS (pyStrip sum))
             now (seen_key u (make_query_hash q)) SEEN_TTL_SECONDS "1")
           now u q (pyStrip sum)).2) := by
  simp only [summary_cache_key, seen_key] at hmiss ⊢
  simp only [handle_question, hq, hmiss, hfull, hsum, save_to_history]
  rw [if_neg hne]
  simp

theorem handle_question_miss_err1 (llmF llmS : String → Except String String)
    (st : RedisState) (now : Nat) (u rawQ q e : String)
    (hq : pyStrip rawQ = q) (hne : q ≠ "")
    (hmiss : (truthy (rget st now (summary_cache_key u (make_query_hash q))) &&
      rexists st now (seen_key u (make_query_hash q))) = false)
    (herr : llmF q = .error e) :
    handle_question llmF llmS st now u rawQ =
      (.modelError e, st,
       [Op.get (summary_cache_key u (make_query_hash q)),
        Op.exists_ (seen_key u (make_query_hash q)), Op.llmFull q]) := by
  simp only [summary_cache_key, seen_key] at hmiss ⊢
  simp only [handle_question, hq, hmiss, herr]
  rw [if_neg hne]
  simp

theorem handle_question_miss_err2 (llmF llmS : String → Except String String)
    (st : RedisState) (now : Nat) (u rawQ q full e : String)
    (hq : pyStrip rawQ = q) (hne : q ≠ "")
    (hmiss : (truthy (rget st now (summary_cache_key u (make_query_hash q))) &&
      rexists st now (seen_key u (make_query_hash q))) = false)
    (hfull : llmF q = .ok full)
    (herr : llmS (summaryPromptPre ++ pyStrip full) = .error e) :
    handle_question llmF llmS st now u rawQ =
      (.modelError e, st,
       [Op.get (summary_cache_key u (make_query_hash q)),
        Op.exists_ (seen_key u (make_query_hash q)), Op.llmFull q,
        Op.llmSummary (summaryPromptPre ++ pyStrip full)]) := by
  simp only [summary_cache_key, seen_key] at hmiss ⊢
  simp only [handle_question, hq, hmiss, hfull, herr]
  rw [if_neg hne]
  simp

/-! ## C5: model failure mutates nothing -/

/-- Is an operation a backend write? -/
def isWriteOp : Op → Bool
  | .setex _ _ _ => true
  | .zadd _ _ _ => true
  | .expire _ _ => true
  | .del _ => true
  | _ => false

/-- **C5.** On a cache miss, if either Groq call raises, the handler ends in
the distinct `modelError` outcome (not an answer, not an empty fallback), the
backend state is returned unchanged, and the call trace contains no write:
no cache entry, no seen flag, no history record is created. -/
theorem model_failure_leaves_state_unchanged
    (llmF llmS : String → Except String String) (st : RedisState) (now : Nat)
    (u rawQ q e : String) (hq : pyStrip rawQ = q) (hne : q ≠ "")
    (hmiss : (truthy (rget st now (summary_cache_key u (make_query_hash q))) &&
      rexists st now (seen_key u (make_query_hash q))) = false)
    (hfail : llmF q = .error e ∨
      ∃ full, llmF q = .ok full ∧
        llmS (summaryPromptPre ++ pyStrip full) = .error e) :
    (handle_question llmF llmS st now u rawQ).1 = .modelError e ∧
    (handle_question llmF llmS st now u rawQ).2.1 = st ∧
    ∀ op ∈ (handle_question llmF llmS st now u rawQ).2.2, isWriteOp op = false := by
  rcases hfail with herr | ⟨full, hfull, herr⟩
  · rw [handle_question_miss_err1 llmF llmS st now u rawQ q e hq hne hmiss herr]
    refine ⟨rfl, rfl, ?_⟩
    intro op hop
    fin_cases hop <;> rfl
  · rw [handle_question_miss_err2 llmF llmS st now u rawQ q full e hq hne hmiss hfull herr]
    refine ⟨rfl, rfl, ?_⟩
    intro op hop
    fin_cases hop <;> rfl

/-- Witness for C5: a failing model on an empty backend. -/
theorem model_failure_leaves_state_unchanged_witness :
    (handle_question (fun _ => Except.error "boom") (fun _ => Except.error "boom")
        RedisState.empty 0 "u" "hi").1 = .modelError "boom" ∧
    (handle_question (fun _ => Except.error "boom") (fun _ => Except.error "boom")
        RedisState.empty 0 "u" "hi").2.1 = RedisState.empty ∧
    ∀ op ∈ (handle_question (fun _ => Except.error "boom")
        (fun _ => Except.error "boom") RedisState.empty 0 "u" "hi").2.2,
      isWriteOp op = false :=
  model_failure_leaves_state_unchanged (fun _ => Except.error "boom")
    (fun _ => Except.error "boom") RedisState.empty 0 "u" "hi" "hi" "boom"
    (by decide) (by decide) (by decide) (Or.inl rfl)

/-! ## C9: an empty cached value is a miss despite the seen flag -/

/-- **C9.** The hit test uses Python truthiness of the cached value, not key
presence: when the stored cache entry is the empty string, the lookup is
treated as a miss even though the seen flag is present, the model is invoked
again, and the entry is overwritten with the fresh condensation. -/
theorem empty_cache_entry_is_miss
    (llmF llmS : String → Except String String) (st : RedisState) (now : Nat)
    (u rawQ q full sum : String) (hq : pyStrip rawQ = q) (hne : q ≠ "")
    (hempty : rget st now (summary_cache_key u (make_query_hash q)) = some "")
    (hseen : rexists st now (seen_key u (make_query_hash q)) = true)
    (hfull : llmF q = .ok full)
    (hsum : llmS (summaryPromptPre ++ pyStrip full) = .ok sum) :
    (handle_question llmF llmS st now u rawQ).1 = .answered false (pyStrip full) ∧
    Op.llmFull q ∈ (handle_question llmF llmS st now u rawQ).2.2 ∧
    rget (handle_question llmF llmS st now u rawQ).2.1 now
      (summary_cache_key u (make_query_hash q)) = some (pyStrip sum) := by
  have hmiss : (truthy (rget st now (summary_cache_key u (make_query_hash q))) &&
      rexists st now (seen_key u (make_query_hash q))) = false := by
    rw [hempty]
    simp [truthy]
  rw [handle_question_miss_ok llmF llmS st now u rawQ q full sum hq hne hmiss hfull hsum]
  refine ⟨rfl, by simp, ?_⟩
  rw [rget_save_to_history _ _ _ _ _ _ _
      (summary_key_ne_history_key u (make_query_hash q) u)]
  rw [rget_rsetex_other _ _ _ _ _ _ _
      (summary_key_ne_seen_key u (make_query_hash q))]
  rw [rget_rsetex_same]
  rw [if_pos (by unfold CACHE_TTL_SECONDS; omega)]

/-- Witness for C9: an empty-string cache entry with a live seen flag. -/
theorem empty_cache_entry_is_miss_witness :
    (let h := make_query_hash "hi"
     let st : RedisState :=
       ⟨[(summary_cache_key "u" h, "", 100), (seen_key "u" h, "1", 100)], []⟩
     (handle_question (fun _ => Except.ok "FULL") (fun _ => Except.ok "SUM")
        st 10 "u" "hi").1 = .answered false (pyStrip "FULL") ∧
     Op.llmFull "hi" ∈ (handle_question (fun _ => Except.ok "FULL")
        (fun _ => Except.ok "SUM") st 10 "u" "hi").2.2 ∧
     rget (handle_question (fun _ => Except.ok "FULL") (fun _ => Except.ok "SUM")
        st 10 "u" "hi").2.1 10 (summary_cache_key "u" h) = some (pyStrip "SUM")) :=
  empty_cache_entry_is_miss (fun _ => Except.ok "FULL") (fun _ => Except.ok "SUM")
    ⟨[(summary_cache_key "u" (make_query_hash "hi"), "", 100),
      (seen_key "u" (make_query_hash "hi"), "1", 100)], []⟩ 10 "u" "hi" "hi"
    "FULL" "SUM" (by decide) (by decide) (by decide) (by decide) rfl rfl

/-! ## C3: the two-tier hit/miss policy -/

/-- **C3** (amended).  The handler takes the CACHE_HIT branch — returning the
stored summary with no model call and no cache or seen-flag write (the trace
holds exactly the two reads plus the history append) — precisely when the
cache entry is present *with a non-empty value* and the seen flag is present.
Otherwise it takes the CACHE_MISS branch: it invokes the model for a full
answer, asks for a condensation, stores the condensation as the cache entry,
sets the seen flag, returns the full answer on that call only, and (while
both TTLs last and the condensation is non-empty) every subsequent call for
the same fingerprint returns the stored condensation as a hit. -/
theorem handle_question_hit_iff_present_nonempty_and_seen
    (llmF llmS : String → Except String String) (st : RedisState) (now : Nat)
    (u rawQ q : String) (hq : pyStrip rawQ = q) (hne : q ≠ "") :
    (∀ v, rget st now (summary_cache_key u (make_query_hash q)) = some v →
      v ≠ "" → rexists st now (seen_key u (make_query_hash q)) = true →
      handle_question llmF llmS st now u rawQ =
        (.answered true v, (save_to_history st now u q v).1,
          [Op.get (summary_cache_key u (make_query_hash q)),
           Op.exists_ (seen_key u (make_query_hash q))] ++
            (save_to_history st now u q v).2)) ∧
    ((truthy (rget st now (summary_cache_key u (make_query_hash q))) &&
        rexists st now (seen_key u (make_query_hash q))) = false →
      ∀ full sum, llmF q = .ok full →
        llmS (summaryPromptPre ++ pyStrip full) = .ok sum →
        (handle_question llmF llmS st now u rawQ).1 =
          .answered false (pyStrip full) ∧
        rget (handle_question llmF llmS st now u rawQ).2.1 now
          (summary_cache_key u (make_query_hash q)) = some (pyStrip sum) ∧
        rget (handle_question llmF llmS st now u rawQ).2.1 now
          (seen_key u (make_query_hash q)) = some "1" ∧
        (∀ llmF' llmS' rawQ' now', pyStrip rawQ' = q →
          now' < now + CACHE_TTL_SECONDS → now' < now + SEEN_TTL_SECONDS →
          pyStrip sum ≠ "" →
          (handle_question llmF' llmS'
              (handle_question llmF llmS st now u rawQ).2.1 now' u rawQ').1 =
            .answered true (pyStrip sum))) := by
  constructor
  · intro v hv hvne hseen
    exact handle_question_hit llmF llmS st now u rawQ q v hq hne hv hvne hseen
  · intro hmiss full sum hfull hsum
    rw [handle_question_miss_ok llmF llmS st now u rawQ q full sum hq hne hmiss hfull hsum]
    have hsk : rget (save_to_history
        (rsetex (rsetex st now (summary_cache_key u (make_query_hash q))
            CACHE_TTL_SECONDS (pyStrip sum))
          now (seen_key u (make_query_hash q)) SEEN_TTL_SECONDS "1")
        now u q (pyStrip sum)).1 now (summary_cache_key u (make_query_hash q)) =
        some (pyStrip sum) := by
      rw [rget_save_to_history _ _ _ _ _ _ _
          (summary_key_ne_history_key u (make_query_hash q) u)]
      rw [rget_rsetex_other _ _ _ _ _ _ _
          (summary_key_ne_seen_key u (make_query_hash q))]
      rw [rget_rsetex_same]
      rw [if_pos (by unfold CACHE_TTL_SECONDS; omega)]
    have hse : rget (save_to_history
        (rsetex (rsetex st now (summary_cache_key u (make_query_hash q))
            CACHE_TTL_SECONDS (pyStrip sum))
          now (seen_key u (make_query_hash q)) SEEN_TTL_SECONDS "1")
        now u q (pyStrip sum)).1 now (seen_key u (make_query_hash q)) =
        some "1" := by
      rw [rget_save_to_history _ _ _ _ _ _ _
          (seen_key_ne_history_key u (make_query_hash q) u)]
      rw [rget_rsetex_same]
      rw [if_pos (by unfold SEEN_TTL_SECONDS; omega)]
    refine ⟨rfl, hsk, hse, ?_⟩
    intro llmF' llmS' rawQ' now' hq' h1 h2 hsne
    have hsk' : rget (save_to_history
        (rsetex (rsetex st now (summary_cache_key u (make_query_hash q))
            CACHE_TTL_SECONDS (pyStrip sum))
          now (seen_key u (make_query_hash q)) SEEN_TTL_SECONDS "1")
        now u q (pyStrip sum)).1 now' (summary_cache_key u (make_query_hash q)) =
        some (pyStrip sum) := by
      rw [rget_save_to_history _ _ _ _ _ _ _
          (summary_key_ne_history_key u (make_query_hash q) u)]
      rw [rget_rsetex_other _ _ _ _ _ _ _
          (summary_key_ne_seen_key u (make_query_hash q))]
      rw [rget_rsetex_same]
      rw [if_pos h1]
    have hse' : rexists (save_to_history
        (rsetex (rsetex st now (summary_cache_key u (make_query_hash q))
            CACHE_TTL_SECONDS (pyStrip sum))
          now (seen_key u (make_query_hash q)) SEEN_TTL_SECONDS "1")
        now u q (pyStrip sum)).1 now' (seen_key u (make_query_hash q)) = true := by
      unfold rexists
      have : rget (save_to_history
          (rsetex (rsetex st now (summary_cache_key u (make_query_hash q))
              CACHE_TTL_SECONDS (pyStrip sum))
            now (seen_key u (make_query_hash q)) SEEN_TTL_SECONDS "1")
          now u q (pyStrip sum)).1 now' (seen_key u (make_query_hash q)) =
          some "1" := by
        rw [rget_save_to_history _ _ _ _ _ _ _
            (seen_key_ne_history_key u (make_query_hash q) u)]
        rw [rget_rsetex_same]
        rw [if_pos h2]
      rw [this]
      rfl
    rw [handle_question_hit llmF' llmS' _ now' u rawQ' q (pyStrip sum)
        hq' hne hsk' hsne hse']

/-- Counterexample to **C3** as stated: with the cache entry *present* (empty
string value) and the seen flag present, the handler still takes the miss
branch and calls the model, so "hit iff both present" fails. -/
theorem hit_iff_present_counterexample :
    (let h := make_query_hash "hi"
     let st : RedisState :=
       ⟨[(summary_cache_key "u" h, "", 100), (seen_key "u" h, "1", 100)], []⟩
     (rget st 10 (summary_cache_key "u" h)).isSome = true ∧
     rexists st 10 (seen_key "u" h) = true ∧
     (handle_question (fun _ => Except.ok "FULL") (fun _ => Except.ok "SUM")
        st 10 "u" "hi").1 = .answered false "FULL" ∧
     Op.llmFull "hi" ∈ (handle_question (fun _ => Except.ok "FULL")
        (fun _ => Except.ok "SUM") st 10 "u" "hi").2.2) := by
  decide

/-- Witness for C3: a first ask on an empty backend is a miss returning the
full answer. -/
theorem handle_question_hit_iff_witness :
    (handle_question (fun _ => Except.ok "F") (fun _ => Except.ok "S")
       RedisState.empty 0 "u" " hi ").1 = .answered false (pyStrip "F") :=
  ((handle_question_hit_iff_present_nonempty_and_seen (fun _ => Except.ok "F")
      (fun _ => Except.ok "S") RedisState.empty 0 "u" " hi " "hi"
      (by decide) (by decide)).2 (by decide) "F" "S" rfl rfl).1

/-! ## C6: the persisted key layout -/

/-- Colon count of a string. -/
def countColon (s : String) : Nat := s.data.count ':'

theorem countColon_append (a b : String) :
    countColon (a ++ b) = countColon a + countColon b := by
  simp [countColon, String.data_append, List.count_append]

/-- Counterexample to **C6** as stated: no instantiation of the five-segment
spec layout (with its extra namespace segment before the kind and the user
after it) can produce the four-segment key this program writes, because the
spec shape contains at least four colons while the program key has three. -/
theorem spec_key_layout_counterexample :
    ¬ ∃ ns user fp kind, (kind = "summary" ∨ kind = "answer") ∧
      "cache:" ++ ns ++ ":" ++ kind ++ ":" ++ user ++ ":" ++ fp =
        summary_cache_key "aman" "0123456789abcdef" := by
  rintro ⟨ns, user, fp, kind, -, he⟩
  have hc := congrArg countColon he
  simp only [countColon_append] at hc
  have h1 : countColon "cache:" = 1 := by decide
  have h2 : countColon ":" = 1 := by decide
  have h3 : countColon (summary_cache_key "aman" "0123456789abcdef") = 3 := by decide
  omega

/-- The key a backend operation addresses, when it has one. -/
def opKey : Op → Option String
  | .get k => some k
  | .exists_ k => some k
  | .setex k _ _ => some k
  | .zadd k _ _ => some k
  | .expire k _ => some k
  | .del k => some k
  | .llmFull _ => none
  | .llmSummary _ => none

/-- **C6** (amended).  Every key this program reads or writes has one of the
three shapes actually used by the source — `cache:{user}:summary:{hash}`,
`cache:{user}:seen:{hash}` and `history:{user}` — with the user name standing
in the position the spec calls the namespace and no separate user segment. -/
theorem keys_follow_program_layout
    (llmF llmS : String → Except String String) (st : RedisState) (now : Nat)
    (u rawQ : String) :
    (∀ op ∈ (handle_question llmF llmS st now u rawQ).2.2, ∀ k, opKey op = some k →
      k = summary_cache_key u (make_query_hash (pyStrip rawQ)) ∨
      k = seen_key u (make_query_hash (pyStrip rawQ)) ∨
      k = history_key u) ∧
    (∀ op ∈ (clear_history st u).2, ∀ k, opKey op = some k → k = history_key u) := by
  constructor
  · by_cases hq0 : pyStrip rawQ = ""
    · have hh : (handle_question llmF llmS st now u rawQ).2.2 = [] := by
        simp [handle_question, hq0]
      rw [hh]
      intro op hop
      simp at hop
    · by_cases hbc : (truthy (rget st now
          (summary_cache_key u (make_query_hash (pyStrip rawQ)))) &&
          rexists st now (seen_key u (make_query_hash (pyStrip rawQ)))) = true
      · obtain ⟨ht, hs⟩ := Bool.and_eq_true_iff.1 hbc
        rcases hval : rget st now
            (summary_cache_key u (make_query_hash (pyStrip rawQ))) with _ | v
        · rw [hval] at ht
          simp [truthy] at ht
        · rw [hval] at ht
          have hvne : v ≠ "" := by
            simpa [truthy] using ht
          rw [handle_question_hit llmF llmS st now u rawQ (pyStrip rawQ) v
              rfl hq0 hval hvne hs]
          intro op hop k hk
          simp only [save_to_history] at hop
          fin_cases hop <;> simp [opKey] at hk <;> simp [← hk]
      · rcases hfl : llmF (pyStrip rawQ) with e | full
        · rw [handle_question_miss_err1 llmF llmS st now u rawQ (pyStrip rawQ) e
              rfl hq0 (by simpa using hbc) hfl]
          intro op hop k hk
          fin_cases hop <;> simp [opKey] at hk <;> simp [← hk]
        · rcases hsl : llmS (summaryPromptPre ++ pyStrip full) with e | sum
          · rw [handle_question_miss_err2 llmF llmS st now u rawQ (pyStrip rawQ)
                full e rfl hq0 (by simpa using hbc) hfl hsl]
            intro op hop k hk
            fin_cases hop <;> simp [opKey] at hk <;> simp [← hk]
          · rw [handle_question_miss_ok llmF llmS st now u rawQ (pyStrip rawQ)
                full sum rfl hq0 (by simpa using hbc) hfl hsl]
            intro op hop k hk
            simp only [save_to_history] at hop
            fin_cases hop <;> simp [opKey] at hk <;> simp [← hk]
  · intro op hop k hk
    simp only [clear_history] at hop
    fin_cases hop
    simp [opKey] at hk
    simp [← hk]

/-- Witness for C6: the deletion issued by the clear operation addresses the
history key. -/
theorem keys_follow_program_layout_witness :
    Op.del (history_key "u") ∈
      (clear_history RedisState.empty "u").2 ∧
    (history_key "u") = history_key "u" :=
  ⟨by decide,
    (keys_follow_program_layout (fun _ => Except.error "e")
      (fun _ => Except.error "e") RedisState.empty 0 "u" "x").2
      (Op.del (history_key "u")) (by decide) (history_key "u") rfl⟩

/-! ## Decimal rendering: totality facts and decode round-trip -/

theorem natStrAux_zero (fuel : Nat) : natStrAux fuel 0 = [] := by
  cases fuel <;> simp [natStrAux]

theorem digitChar_isDigit {d : Nat} (h : d < 10) : (Nat.digitChar d).isDigit = true := by
  interval_cases d <;> decide

theorem digitChar_toNat_sub {d : Nat} (h : d < 10) : (Nat.digitChar d).toNat - 48 = d := by
  interval_cases d <;> decide

theorem natStrAux_all_digits (fuel : Nat) :
    ∀ n, ∀ c ∈ natStrAux fuel n, c.isDigit = true := by
  induction fuel with
  | zero => intro n c hc; simp [natStrAux] at hc
  | succ fuel ih =>
    intro n c hc
    by_cases hn : n = 0
    · simp [natStrAux, hn] at hc
    · simp only [natStrAux, if_neg hn, List.mem_append, List.mem_singleton] at hc
      rcases hc with hc | rfl
      · exact ih _ c hc
      · exact digitChar_isDigit (Nat.mod_lt _ (by norm_num))

theorem natStr_all_digits (n : Nat) : ∀ c ∈ natStr n, c.isDigit = true := by
  unfold natStr
  by_cases hn : n = 0
  · simp [hn]
  · rw [if_neg hn]
    exact natStrAux_all_digits n n

theorem natStr_ne_nil (n : Nat) : natStr n ≠ [] := by
  unfold natStr
  by_cases hn : n = 0
  · simp [hn]
  · rw [if_neg hn]
    rcases n with _ | m
    · exact absurd rfl hn
    · simp [natStrAux, hn]

theorem digitsVal_append_digit (l : List Char) (c : Char) :
    digitsVal (l ++ [c]) = 10 * digitsVal l + (c.toNat - 48) := by
  simp [digitsVal, List.foldl_append]

theorem digitsVal_natStrAux (fuel : Nat) :
    ∀ n, n ≤ fuel → digitsVal (natStrAux fuel n) = n := by
  induction fuel with
  | zero =>
    intro n hn
    interval_cases n
    simp [natStrAux, digitsVal]
  | succ fuel ih =>
    intro n hn
    by_cases hn0 : n = 0
    · simp [natStrAux, hn0, digitsVal]
    · rw [natStrAux, if_neg hn0, digitsVal_append_digit]
      have hdiv : n / 10 ≤ fuel := by
        have : n / 10 < n := Nat.div_lt_self (Nat.pos_of_ne_zero hn0) (by norm_num)
        omega
      rw [ih _ hdiv, digitChar_toNat_sub (Nat.mod_lt _ (by norm_num))]
      omega

theorem digitsVal_natStr (n : Nat) : digitsVal (natStr n) = n := by
  unfold natStr
  by_cases hn : n = 0
  · simp [hn, digitsVal]
  · rw [if_neg hn]
    exact digitsVal_natStrAux n n le_rfl

/-! ## takeWhile / dropWhile over a satisfied prefix -/

theorem takeWhile_append_of_head {p : Char → Bool} (l r : List Char)
    (hl : ∀ c ∈ l, p c = true)
    (hr : ∀ c, r.head? = some c → p c = false) :
    (l ++ r).takeWhile p = l ∧ (l ++ r).dropWhile p = r := by
  induction l with
  | nil =>
    rcases r with _ | ⟨c, cs⟩
    · exact ⟨rfl, rfl⟩
    · have hc := hr c rfl
      simp [List.takeWhile_cons, List.dropWhile_cons, hc]
  | cons c cs ih =>
    have hc : p c = true := hl c (by simp)
    have hcs : ∀ x ∈ cs, p x = true := fun x hx => hl x (by simp [hx])
    obtain ⟨h1, h2⟩ := ih hcs
    simp [List.takeWhile_cons, List.dropWhile_cons, hc, h1, h2]

/-! ## JSON escaping: decode round-trip -/

theorem hexVal_digitChar {m : Nat} (h : m < 16) : hexVal (Nat.digitChar m) = m := by
  interval_cases m <;> decide

theorem escList_cons (c : Char) (cs : List Char) :
    escList (c :: cs) = escChar c ++ escList cs := by
  simp [escList]

theorem uq_nil : unescQuote [] = none := by
  unfold unescQuote
  rfl

theorem uq_quote (l : List Char) : unescQuote ('"' :: l) = some ([], l) := by
  conv_lhs => unfold unescQuote
  simp

theorem uq_esc_quote (l : List Char) :
    unescQuote ('\\' :: '"' :: l) = consFst '"' (unescQuote l) := by
  conv_lhs => unfold unescQuote
  simp

theorem uq_esc_back (l : List Char) :
    unescQuote ('\\' :: '\\' :: l) = consFst '\\' (unescQuote l) := by
  conv_lhs => unfold unescQuote
  simp

theorem uq_esc_n (l : List Char) :
    unescQuote ('\\' :: 'n' :: l) = consFst '\n' (unescQuote l) := by
  conv_lhs => unfold unescQuote
  simp

theorem uq_esc_t (l : List Char) :
    unescQuote ('\\' :: 't' :: l) = consFst '\t' (unescQuote l) := by
  conv_lhs => unfold unescQuote
  simp

theorem uq_esc_r (l : List Char) :
    unescQuote ('\\' :: 'r' :: l) = consFst '\r' (unescQuote l) := by
  conv_lhs => unfold unescQuote
  simp

theorem uq_esc_b (l : List Char) :
    unescQuote ('\\' :: 'b' :: l) = consFst (Char.ofNat 8) (unescQuote l) := by
  conv_lhs => unfold unescQuote
  simp

theorem uq_esc_f (l : List Char) :
    unescQuote ('\\' :: 'f' :: l) = consFst (Char.ofNat 12) (unescQuote l) := by
  conv_lhs => unfold unescQuote
  simp

theorem uq_esc_u (a b : Char) (l : List Char) :
    unescQuote ('\\' :: 'u' :: '0' :: '0' :: a :: b :: l) =
      consFst (Char.ofNat (16 * hexVal a + hexVal b)) (unescQuote l) := by
  conv_lhs => unfold unescQuote
  simp

theorem uq_plain (c : Char) (l : List Char) (h1 : c ≠ '"') (h2 : c ≠ '\\') :
    unescQuote (c :: l) = consFst c (unescQuote l) := by
  conv_lhs => unfold unescQuote
  simp [h1, h2]

theorem unescQuote_escList (l : List Char) (r : List Char) :
    unescQuote (escList l ++ '"' :: r) = some (l, r) := by
  induction l with
  | nil => simp [escList, uq_quote]
  | cons c cs ih =>
    rw [escList_cons, List.append_assoc]
    by_cases h1 : c = '"'
    · subst h1
      simp [escChar, uq_esc_quote, consFst, ih]
    · by_cases h2 : c = '\\'
      · subst h2
        simp [escChar, uq_esc_back, consFst, ih]
      · by_cases h3 : c = '\n'
        · subst h3
          simp [escChar, uq_esc_n, consFst, ih]
        · by_cases h4 : c = '\t'
          · subst h4
            simp [escChar, uq_esc_t, consFst, ih]
          · by_cases h5 : c = '\r'
            · subst h5
              simp [escChar, uq_esc_r, consFst, ih]
            · by_cases h6 : c.toNat = 8
              · have hc : c = Char.ofNat 8 :=
                  char_eq_of_toNat_eq (h6.trans (by decide))
                subst hc
                simp [escChar, uq_esc_b, consFst, ih]
              · by_cases h7 : c.toNat = 12
                · have hc : c = Char.ofNat 12 :=
                    char_eq_of_toNat_eq (h7.trans (by decide))
                  subst hc
                  simp [escChar, uq_esc_f, consFst, ih]
                · by_cases h8 : c.toNat < 32
                  · have hesc : escChar c =
                        ['\\', 'u', '0', '0', Nat.digitChar (c.toNat / 16),
                         Nat.digitChar (c.toNat % 16)] := by
                      simp [escChar, h1, h2, h3, h4, h5, h6, h7, h8]
                    rw [hesc]
                    have hv1 : hexVal (Nat.digitChar (c.toNat / 16)) = c.toNat / 16 :=
                      hexVal_digitChar (by omega)
                    have hv2 : hexVal (Nat.digitChar (c.toNat % 16)) = c.toNat % 16 :=
                      hexVal_digitChar (Nat.mod_lt _ (by norm_num))
                    simp only [List.cons_append, List.nil_append, uq_esc_u]
                    rw [hv1, hv2]
                    have hdm : 16 * (c.toNat / 16) + c.toNat % 16 = c.toNat := by omega
                    rw [hdm, Char.ofNat_toNat, ih]
                    rfl
                  · have hesc : escChar c = [c] := by
                      simp [escChar, h1, h2, h3, h4, h5, h6, h7, h8]
                    rw [hesc]
                    simp only [List.cons_append, List.nil_append]
                    rw [uq_plain c _ h1 h2, ih]
                    rfl

theorem dropPre_append (p l : List Char) : dropPre p (p ++ l) = some l := by
  induction p with
  | nil => rfl
  | cons c cs ih => simp [dropPre, ih]

theorem spanDigits_natStr (n : Nat) (rest : List Char) :
    spanDigits (natStr n ++ ',' :: rest) = (natStr n, ',' :: rest) := by
  unfold spanDigits
  obtain ⟨h1, h2⟩ := takeWhile_append_of_head (natStr n) (',' :: rest)
    (natStr_all_digits n)
    (fun c hc => by
      injection hc with hc
      rw [← hc]
      decide)
  rw [h1, h2]

theorem dropPre_nil (l : List Char) : dropPre [] l = some l := rfl

theorem dropPre_cons (c : Char) (ps cs : List Char) :
    dropPre (c :: ps) (c :: cs) = dropPre ps cs := by
  conv_lhs => unfold dropPre
  simp

theorem natStr_isEmpty_false (n : Nat) : (natStr n).isEmpty = false := by
  rcases hns : natStr n with _ | ⟨c, cs⟩
  · exact absurd hns (natStr_ne_nil n)
  · rfl

theorem string_mk_data (s : String) : String.mk s.data = s := rfl

theorem parseMsgL_serializeMsg (m : HistMsg) :
    parseMsgL ((serializeMsg m).data) = some m := by
  obtain ⟨ts, t, q, s⟩ := m
  unfold serializeMsg parseMsgL natToString jsonQuote
  simp only [String.data_append, List.append_assoc, List.cons_append, List.nil_append]
  simp [dropPre_cons, dropPre_nil, Option.bind, spanDigits_natStr,
    natStr_isEmpty_false, unescQuote_escList, digitsVal_natStr, string_mk_data,
    natStr_ne_nil]

theorem parseMsg_serializeMsg (m : HistMsg) : parseMsg (serializeMsg m) = some m :=
  parseMsgL_serializeMsg m

theorem serializeMsg_injective {m1 m2 : HistMsg}
    (h : serializeMsg m1 = serializeMsg m2) : m1 = m2 := by
  have hp := congrArg parseMsg h
  rw [parseMsg_serializeMsg, parseMsg_serializeMsg] at hp
  exact Option.some.inj hp

/-! ## Sorted-set member semantics of `ZADD` -/

theorem map_fix_id {α : Type} (f : α → α) (l : List α) (h : ∀ e ∈ l, f e = e) :
    l.map f = l := by
  induction l with
  | nil => rfl
  | cons e es ih =>
    rw [List.map_cons, h e (by simp), ih (fun x hx => h x (by simp [hx]))]

theorem zaddOne_not_mem (ms : List (String × Int)) (m : String) (sc : Int)
    (h : m ∉ ms.map Prod.fst) : zaddOne ms m sc = ms ++ [(m, sc)] := by
  unfold zaddOne
  rw [if_neg]
  intro hc
  simp only [List.any_eq_true, decide_eq_true_eq] at hc
  obtain ⟨p, hp, hpm⟩ := hc
  exact h (List.mem_map.2 ⟨p, hp, hpm⟩)

theorem mem_map_fst_zaddOne_self (ms : List (String × Int)) (m : String) (sc : Int) :
    m ∈ (zaddOne ms m sc).map Prod.fst := by
  unfold zaddOne
  by_cases ha : ms.any (fun p => decide (p.1 = m)) = true
  · rw [if_pos ha]
    simp only [List.any_eq_true, decide_eq_true_eq] at ha
    obtain ⟨p, hp, hpm⟩ := ha
    exact List.mem_map.2 ⟨(m, sc), List.mem_map.2 ⟨p, hp, by simp [hpm]⟩, rfl⟩
  · rw [if_neg ha]
    simp

theorem mem_map_fst_zaddOne_other (ms : List (String × Int)) (m m' : String)
    (sc : Int) (h : m' ∈ ms.map Prod.fst) : m' ∈ (zaddOne ms m sc).map Prod.fst := by
  unfold zaddOne
  by_cases ha : ms.any (fun p => decide (p.1 = m)) = true
  · rw [if_pos ha]
    obtain ⟨p, hp, rfl⟩ := List.mem_map.1 h
    by_cases hpm : p.1 = m
    · refine List.mem_map.2 ⟨(m, sc), List.mem_map.2 ⟨p, hp, by simp [hpm]⟩, ?_⟩
      simp [hpm]
    · exact List.mem_map.2 ⟨p, List.mem_map.2 ⟨p, hp, by simp [hpm]⟩, rfl⟩
  · rw [if_neg ha]
    simp [List.mem_map.1 h]

theorem zaddOne_entry_eq (ms : List (String × Int)) (m : String) (sc : Int) :
    ∀ e ∈ zaddOne ms m sc, e.1 = m → e = (m, sc) := by
  unfold zaddOne
  by_cases ha : ms.any (fun p => decide (p.1 = m)) = true
  · rw [if_pos ha]
    intro e he hem
    obtain ⟨p, hp, rfl⟩ := List.mem_map.1 he
    by_cases hpm : p.1 = m
    · simp [hpm]
    · simp only [if_neg hpm] at hem ⊢
      exact absurd hem hpm
  · rw [if_neg ha]
    intro e he hem
    rcases List.mem_append.1 he with he | he
    · exfalso
      apply ha
      simp only [List.any_eq_true, decide_eq_true_eq]
      exact ⟨e, he, hem⟩
    · simpa using he

theorem zaddOne_idem (ms : List (String × Int)) (m : String) (sc : Int) :
    zaddOne (zaddOne ms m sc) m sc = zaddOne ms m sc := by
  have hm := mem_map_fst_zaddOne_self ms m sc
  have hfix := zaddOne_entry_eq ms m sc
  set A := zaddOne ms m sc with hA
  have ha : (A.any fun p => decide (p.1 = m)) = true := by
    simp only [List.any_eq_true, decide_eq_true_eq]
    obtain ⟨p, hp, hpm⟩ := List.mem_map.1 hm
    exact ⟨p, hp, hpm⟩
  show zaddOne A m sc = A
  unfold zaddOne
  rw [if_pos ha]
  apply map_fix_id
  intro e he
  by_cases hem : e.1 = m
  · rw [if_pos hem, hfix e he hem]
  · rw [if_neg hem]

/-! ## The structural effect of `save_to_history` on the sorted sets -/

theorem rzadd_zsets (st : RedisState) (now : Nat) (k m : String) (sc : Int) :
    ∃ exp, liveExp now exp = true ∧
      (rzadd st now k m sc).zsets =
        (k, (zaddOne ((zsetLive st now k).getD []) m sc, exp)) ::
          st.zsets.filter (fun p => p.1 ≠ k) := by
  unfold rzadd zsetLive
  rcases hl : st.zsets.lookup k with _ | ⟨ms, exp⟩
  · exact ⟨none, rfl, by simp [setZset]⟩
  · by_cases hle : liveExp now exp = true
    · refine ⟨exp, hle, ?_⟩
      simp [hle, setZset]
    · have hle' : liveExp now exp = false := by
        rw [Bool.eq_false_iff]; exact hle
      refine ⟨none, rfl, ?_⟩
      simp [hle', setZset]

theorem rexpire_zsets (st : RedisState) (now : Nat) (k : String) (ttl : Nat) :
    (rexpire st now k ttl).zsets = st.zsets.map (fun p =>
      if p.1 = k && liveExp now p.2.2 then (p.1, (p.2.1, some (now + ttl))) else p) :=
  rfl

theorem save_to_history_zsets (st : RedisState) (now : Nat) (u q s : String) :
    (save_to_history st now u q s).1.zsets =
      (history_key u,
        (zaddOne ((zsetLive st now (history_key u)).getD [])
           (serializeMsg ⟨now, fmtTime now, q, s⟩) (-(now : Int)),
         some (now + HISTORY_TTL_SECONDS))) ::
        st.zsets.filter (fun p => p.1 ≠ history_key u) := by
  obtain ⟨exp, hexp, hz⟩ := rzadd_zsets st now (history_key u)
    (serializeMsg ⟨now, fmtTime now, q, s⟩) (-(now : Int))
  show (rexpire (rzadd st now (history_key u)
      (serializeMsg ⟨now, fmtTime now, q, s⟩) (-(now : Int)))
      now (history_key u) HISTORY_TTL_SECONDS).zsets = _
  rw [rexpire_zsets, hz, List.map_cons]
  congr 1
  · simp [hexp]
  · apply map_fix_id
    intro e he
    have hne : e.1 ≠ history_key u := by
      simpa using (List.mem_filter.1 he).2
    simp [hne]

theorem zsetLive_of_zsets_cons (st : RedisState) (now : Nat) (k : String)
    (ms : List (String × Int)) (exp : Option Nat)
    (tl : List (String × List (String × Int) × Option Nat))
    (hz : st.zsets = (k, (ms, exp)) :: tl) (hlv : liveExp now exp = true) :
    zsetLive st now k = some ms := by
  unfold zsetLive
  rw [hz]
  have he : (k == k) = true := by simp
  simp [List.lookup_cons, he, hlv]

/-! ## C8: what one history append does -/

/-- **C8** (amended).  When the serialised record is not already a member of
the live per-user log, `save_to_history` appends exactly that one member with
score `-ts` at the end — previously stored members are untouched — and
re-sets the expiry of the whole log to `HISTORY_TTL_SECONDS` from now; all
other sorted sets are untouched, and the backend calls are exactly one `ZADD`
followed by one `EXPIRE`.  (The claim's unconditional "adds exactly one
record" fails for an exact duplicate, which `ZADD` overwrites — see the
counterexample and C10.) -/
theorem save_appends_record_and_resets_ttl (st : RedisState) (now : Nat)
    (u q s : String)
    (hmem : serializeMsg ⟨now, fmtTime now, q, s⟩ ∉
      ((zsetLive st now (history_key u)).getD []).map Prod.fst) :
    (save_to_history st now u q s).1.zsets.lookup (history_key u) =
      some (((zsetLive st now (history_key u)).getD []) ++
          [(serializeMsg ⟨now, fmtTime now, q, s⟩, -(now : Int))],
        some (now + HISTORY_TTL_SECONDS)) ∧
    (∀ a, a ≠ history_key u →
      (save_to_history st now u q s).1.zsets.lookup a = st.zsets.lookup a) ∧
    (save_to_history st now u q s).2 =
      [Op.zadd (history_key u) (serializeMsg ⟨now, fmtTime now, q, s⟩)
        (-(now : Int)),
       Op.expire (history_key u) HISTORY_TTL_SECONDS] := by
  refine ⟨?_, ?_, rfl⟩
  · rw [save_to_history_zsets]
    have he : (history_key u == history_key u) = true := by simp
    simp only [List.lookup_cons, he]
    rw [zaddOne_not_mem _ _ _ hmem]
  · intro a ha
    rw [save_to_history_zsets]
    have hne : (a == history_key u) = false := by simp [ha]
    simp only [List.lookup_cons, hne]
    exact lookup_filter_ne a _ _ ha

/-- Counterexample to **C8** as stated: appending the identical record twice
leaves a single stored member (the second `ZADD` overwrites), so the second
append does not "add exactly one record". -/
theorem duplicate_append_keeps_one_record :
    ((save_to_history (save_to_history RedisState.empty 5 "u" "q" "s").1
        5 "u" "q" "s").1.zsets.lookup (history_key "u")).map
      (fun v => v.1.length) = some 1 := by
  decide

/-- Witness for C8: a fresh append on an empty backend. -/
theorem save_appends_record_witness :
    (save_to_history RedisState.empty 7 "u" "q" "s").1.zsets.lookup
        (history_key "u") =
      some ([(serializeMsg ⟨7, fmtTime 7, "q", "s"⟩, -(7 : Int))],
        some (7 + HISTORY_TTL_SECONDS)) := by
  have h := (save_appends_record_and_resets_ttl RedisState.empty 7 "u" "q" "s"
    (by decide)).1
  simpa using h

/-! ## C10: the serialised record is the member key -/

/-- **C10.** Appending two records with identical timestamp, question and
summary for one user stores only one member — the serialised JSON record is
the sorted-set member, so the exact duplicate overwrites and the state is
unchanged by the repeat — whereas two records differing in any field have
different (injective) serialisations and both persist in the log. -/
theorem history_duplicate_overwrites_distinct_persist
    (st : RedisState) (now1 now2 : Nat) (u q1 s1 q2 s2 : String)
    (hdiff : ¬(now1 = now2 ∧ q1 = q2 ∧ s1 = s2))
    (hlive : now2 < now1 + HISTORY_TTL_SECONDS) :
    (save_to_history (save_to_history st now1 u q1 s1).1 now1 u q1 s1).1.zsets =
      (save_to_history st now1 u q1 s1).1.zsets ∧
    serializeMsg ⟨now1, fmtTime now1, q1, s1⟩ ≠
      serializeMsg ⟨now2, fmtTime now2, q2, s2⟩ ∧
    serializeMsg ⟨now1, fmtTime now1, q1, s1⟩ ∈
      ((zsetLive (save_to_history (save_to_history st now1 u q1 s1).1
          now2 u q2 s2).1 now2 (history_key u)).getD []).map Prod.fst ∧
    serializeMsg ⟨now2, fmtTime now2, q2, s2⟩ ∈
      ((zsetLive (save_to_history (save_to_history st now1 u q1 s1).1
          now2 u q2 s2).1 now2 (history_key u)).getD []).map Prod.fst := by
  have hz1 := save_to_history_zsets st now1 u q1 s1
  refine ⟨?_, ?_, ?_, ?_⟩
  · -- duplicate append is a no-op on the sorted sets
    rw [save_to_history_zsets (save_to_history st now1 u q1 s1).1 now1 u q1 s1]
    have hlv : liveExp now1 (some (now1 + HISTORY_TTL_SECONDS)) = true := by
      simp [liveExp, HISTORY_TTL_SECONDS]
    have hlive1 := zsetLive_of_zsets_cons _ now1 _ _ _ _ hz1 hlv
    rw [hlive1]
    simp only [Option.getD_some]
    rw [zaddOne_idem, hz1]
    rw [List.filter_cons]
    rw [if_neg (by simp)]
    rw [List.filter_filter]
    congr 1
    simp
  · intro he
    have hinj := serializeMsg_injective he
    rw [HistMsg.mk.injEq] at hinj
    exact hdiff ⟨hinj.1, hinj.2.2.1, hinj.2.2.2⟩
  · -- the first record survives the second, different append
    have hz2 := save_to_history_zsets (save_to_history st now1 u q1 s1).1 now2 u q2 s2
    have hlv2 : liveExp now2 (some (now1 + HISTORY_TTL_SECONDS)) = true := by
      simp [liveExp]
      omega
    have hliveA := zsetLive_of_zsets_cons _ now2 _ _ _ _ hz1 hlv2
    have hlv3 : liveExp now2 (some (now2 + HISTORY_TTL_SECONDS)) = true := by
      simp [liveExp, HISTORY_TTL_SECONDS]
    have hliveB := zsetLive_of_zsets_cons _ now2 _ _ _ _ hz2 hlv3
    rw [hliveB]
    simp only [Option.getD_some]
    rw [hliveA]
    simp only [Option.getD_some]
    exact mem_map_fst_zaddOne_other _ _ _ _ (mem_map_fst_zaddOne_self _ _ _)
  · have hz2 := save_to_history_zsets (save_to_history st now1 u q1 s1).1 now2 u q2 s2
    have hlv3 : liveExp now2 (some (now2 + HISTORY_TTL_SECONDS)) = true := by
      simp [liveExp, HISTORY_TTL_SECONDS]
    have hliveB := zsetLive_of_zsets_cons _ now2 _ _ _ _ hz2 hlv3
    rw [hliveB]
    simp only [Option.getD_some]
    exact mem_map_fst_zaddOne_self _ _ _

/-- Witness for C10: two records equal except for the timestamp serialise
differently (and the duplicate-append no-op holds at the same input). -/
theorem history_duplicate_witness :
    (save_to_history (save_to_history RedisState.empty 1 "u" "a" "b").1
        1 "u" "a" "b").1.zsets =
      (save_to_history RedisState.empty 1 "u" "a" "b").1.zsets ∧
    serializeMsg ⟨1, fmtTime 1, "a", "b"⟩ ≠ serializeMsg ⟨2, fmtTime 2, "a", "b"⟩ :=
  ⟨(history_duplicate_overwrites_distinct_persist RedisState.empty 1 2 "u" "a" "b"
      "a" "b" (by decide) (by decide)).1,
   (history_duplicate_overwrites_distinct_persist RedisState.empty 1 2 "u" "a" "b"
      "a" "b" (by decide) (by decide)).2.1⟩
